import Mathlib

/-!
Verification development for the Parcels particle-advection core.

The repository ships only documentation (a structure tutorial) and an
environment description; the engine itself (kernel grammar validator and
code generator, compiled-function loader and cache, field interpolation
engine, particle executor, domain splitter) is specified in spec.md.
Every definition below is therefore modelled from the spec, with exact
rationals standing in for machine floating-point scalars.
-/

namespace Parcels

/-- Scalar values of the simulation; exact rationals stand in for floats. -/
abbrev Scalar := ℚ

/-! ## Field interpolation engine (spec section 4.3) -/

/-- Modelled from the spec: a Field is an immutable grid of sampled values
over (time, depth, lat, lon) axes; axis coordinate arrays are monotonic.
The engine itself is absent from the sources. -/
structure Field where
  tAxis : List Scalar
  dAxis : List Scalar
  laAxis : List Scalar
  loAxis : List Scalar
  values : Nat → Nat → Nat → Nat → Scalar

/-- Number of axis nodes with coordinate at most `x`. -/
def countLE (axis : List Scalar) (x : Scalar) : Nat :=
  axis.countP (fun a => decide (a ≤ x))

/-- Modelled from the spec: spatial cell location by search on a monotonic
axis — the index of the left node of the cell bracketing `x`, clamped to
the last full cell. -/
def locate (axis : List Scalar) (x : Scalar) : Nat :=
  min (countLE axis x - 1) (axis.length - 2)

/-- Linear interpolation between `a` and `b` with weight `w`. -/
def lerp (a b w : Scalar) : Scalar := a + w * (b - a)

/-- Fractional position of `x` inside the axis cell with left node `j`. -/
def cellFrac (axis : List Scalar) (x : Scalar) (j : Nat) : Scalar :=
  let x0 := axis.getD j 0
  let x1 := axis.getD (j+1) 0
  if x1 = x0 then 0 else (x - x0) / (x1 - x0)

/-- Modelled from the spec: one-dimensional linear interpolation along one
axis; an axis with a single node is constant along that axis. -/
def interp1 (axis : List Scalar) (vals : Nat → Scalar) (x : Scalar) : Scalar :=
  if axis.length ≤ 1 then vals 0
  else
    let j := locate axis x
    lerp (vals j) (vals (j+1)) (cellFrac axis x j)

/-- Modelled from the spec: `sample(field, time, depth, lat, lon)` —
multilinear interpolation, one linear stage per axis. -/
def sample (f : Field) (t d la lo : Scalar) : Scalar :=
  interp1 f.tAxis (fun it =>
    interp1 f.dAxis (fun idp =>
      interp1 f.laAxis (fun ila =>
        interp1 f.loAxis (fun ilo => f.values it idp ila ilo) lo) la) d) t

lemma countLE_at_node (axis : List Scalar) (hs : axis.Pairwise (· < ·)) :
    ∀ (i : Nat) (hi : i < axis.length), countLE axis axis[i] = i + 1 := by
  induction axis with
  | nil => intro i hi; simp at hi
  | cons a tl ih =>
    rcases List.pairwise_cons.mp hs with ⟨ha, htl⟩
    intro i hi
    cases i with
    | zero =>
      simp only [List.getElem_cons_zero, countLE, List.countP_cons]
      have hzero : tl.countP (fun b => decide (b ≤ a)) = 0 := by
        apply List.countP_eq_zero.mpr
        intro b hb
        simp only [decide_eq_true_eq]
        exact not_le.mpr (ha b hb)
      simp [hzero]
    | succ j =>
      have hj : j < tl.length := Nat.lt_of_succ_lt_succ hi
      have hmem : tl[j] ∈ tl := List.getElem_mem hj
      have hle : a ≤ tl[j] := le_of_lt (ha _ hmem)
      simp only [List.getElem_cons_succ, countLE, List.countP_cons]
      have := ih htl j hj
      simp only [countLE] at this
      simp [this, hle]

lemma interp1_node (axis : List Scalar) (vals : Nat → Scalar)
    (hs : axis.Pairwise (· < ·)) (i : Nat) (hi : i < axis.length) :
    interp1 axis vals axis[i] = vals i := by
  by_cases hlen : axis.length ≤ 1
  · have hi0 : i = 0 := Nat.lt_one_iff.mp (Nat.lt_of_lt_of_le hi hlen)
    subst hi0
    simp [interp1, hlen]
  · push_neg at hlen
    have hloc : locate axis axis[i] = min i (axis.length - 2) := by
      simp [locate, countLE_at_node axis hs i hi]
    have hpair : ∀ (p q : Nat) (hp : p < axis.length) (hq : q < axis.length),
        p < q → axis[p] < axis[q] := by
      intro p q hp hq hpq
      exact List.pairwise_iff_getElem.mp hs p q hp hq hpq
    by_cases hcase : i ≤ axis.length - 2
    · have hj : locate axis axis[i] = i := by
        rw [hloc]; exact Nat.min_eq_left hcase
      have hi1 : i + 1 < axis.length := by omega
      have hlt : axis[i] < axis[i+1] := hpair i (i+1) hi hi1 (Nat.lt_succ_self i)
      have hx0 : axis.getD i 0 = axis[i] := List.getD_eq_getElem axis 0 hi
      have hx1 : axis.getD (i+1) 0 = axis[i+1] := List.getD_eq_getElem axis 0 hi1
      have hne : axis[i+1] ≠ axis[i] := ne_of_gt hlt
      simp only [interp1, if_neg (not_le.mpr hlen), hj, cellFrac, hx0, hx1,
        if_neg hne, sub_self, zero_div, lerp]
      ring
    · have hieq : i = axis.length - 1 := by omega
      have hj : locate axis axis[i] = axis.length - 2 := by
        rw [hloc]; omega
      have hm2 : axis.length - 2 < axis.length := by omega
      have hm1 : axis.length - 2 + 1 < axis.length := by omega
      have hstep : axis.length - 2 + 1 = i := by omega
      have hlt : axis[axis.length - 2] < axis[axis.length - 2 + 1] :=
        hpair _ _ hm2 hm1 (Nat.lt_succ_self _)
      have hx0 : axis.getD (axis.length - 2) 0 = axis[axis.length - 2] :=
        List.getD_eq_getElem axis 0 hm2
      have hx1 : axis.getD (axis.length - 2 + 1) 0 = axis[axis.length - 2 + 1] :=
        List.getD_eq_getElem axis 0 hm1
      have hxi : axis[axis.length - 2 + 1] = axis[i] := by
        congr 1
      have hne : axis[i] ≠ axis[axis.length - 2] := by
        rw [← hxi]; exact ne_of_gt hlt
      have hsub : axis[i] - axis[axis.length - 2] ≠ 0 := sub_ne_zero.mpr hne
      have hxg : axis.getD i 0 = axis[i] := List.getD_eq_getElem axis 0 hi
      simp only [interp1, if_neg (not_le.mpr hlen), hj, cellFrac, hx0, hx1, hxi,
        lerp, hstep, hxg]
      rw [if_neg hne, div_self hsub]
      ring

/-- C6: sampling a field at a query point that coincides exactly with a grid
node returns the stored value at that node, with zero interpolation error. -/
theorem sample_at_node (f : Field) (it idp ila ilo : Nat)
    (hts : f.tAxis.Pairwise (· < ·)) (hds : f.dAxis.Pairwise (· < ·))
    (hlas : f.laAxis.Pairwise (· < ·)) (hlos : f.loAxis.Pairwise (· < ·))
    (hit : it < f.tAxis.length) (hid : idp < f.dAxis.length)
    (hila : ila < f.laAxis.length) (hilo : ilo < f.loAxis.length) :
    sample f f.tAxis[it] f.dAxis[idp] f.laAxis[ila] f.loAxis[ilo] =
      f.values it idp ila ilo := by
  unfold sample
  rw [interp1_node f.tAxis _ hts it hit,
      interp1_node f.dAxis _ hds idp hid,
      interp1_node f.laAxis _ hlas ila hila,
      interp1_node f.loAxis _ hlos ilo hilo]

/-- Concrete witness grid used to instantiate hypothesis-bearing theorems. -/
def demoField : Field :=
  { tAxis := [0, 1], dAxis := [0, 5], laAxis := [0, 2], loAxis := [0, 3]
    values := fun it idp ila ilo => (it : Scalar) + 10 * idp + 100 * ila + 1000 * ilo }

/-- Witness for C6 at a concrete grid node. -/
theorem sample_at_node_witness :
    sample demoField 1 0 2 3 = demoField.values 1 0 1 1 := by
  have h := sample_at_node demoField 1 0 1 1
    (by decide) (by decide) (by decide) (by decide)
    (by decide) (by decide) (by decide) (by decide)
  simpa [demoField] using h

/-! ## Kernel grammar (spec section 4.1): raw kernel bodies -/

/-- Particle position fields, whose direct mutation is disallowed. -/
inductive PosField where
  | lon | lat | depth | time
deriving DecidableEq

/-- Per-step delta accumulators (the delta counterparts of the position). -/
inductive DeltaField where
  | dlon | dlat | ddepth | dtime
deriving DecidableEq

/-- Readable particle attributes inside kernel code. -/
inductive PVar where
  | lon | lat | depth | time | dt | pid | uservar (name : String)
deriving DecidableEq

/-- Scalar arithmetic operators of the restricted grammar. -/
inductive BinOp where
  | add | sub | mul | div | pow
deriving DecidableEq

/-- Comparison operators of the restricted grammar. -/
inductive CmpOp where
  | lt | le | gt | ge | eq | ne
deriving DecidableEq

/-- Fixed allow-list of math functions callable from kernels. -/
inductive MathFn where
  | fabs | floor | ceil
deriving DecidableEq

/-- Deterministic seedable random-number source functions. -/
inductive RandFn where
  | random
deriving DecidableEq

/-- Modelled from the spec: raw (pre-validation) kernel expressions; the
grammar validator itself is absent from the sources.  Disallowed
constructs (arbitrary function calls, collection literals) are present
here and rejected by validation. -/
inductive RExpr where
  | lit (v : Scalar)
  | localVar (name : String)
  | particleGet (fld : PVar)
  | binop (op : BinOp) (a b : RExpr)
  | mathCall (fn : MathFn) (arg : RExpr)
  | randCall (fn : RandFn)
  | sampleAt (fld : String) (t d la lo : RExpr)
  | sampleHere (fld : String)
  | anyCall (fn : String) (args : List RExpr)
  | collection (elems : List RExpr)

/-- Raw boolean conditions (comparisons and connectives). -/
inductive RCond where
  | cmp (op : CmpOp) (a b : RExpr)
  | andC (a b : RCond)
  | orC (a b : RCond)
  | notC (a : RCond)

/-- Modelled from the spec: raw kernel statements, each carrying a source
location.  Disallowed constructs (direct position mutation, for loops,
imports) are present here and rejected by validation. -/
inductive RStmt where
  | assignLocal (loc : Nat) (name : String) (e : RExpr)
  | addDelta (loc : Nat) (df : DeltaField) (e : RExpr)
  | assignVar (loc : Nat) (name : String) (e : RExpr)
  | assignPos (loc : Nat) (pf : PosField) (e : RExpr)
  | ifS (loc : Nat) (c : RCond) (thn els : List RStmt)
  | whileS (loc : Nat) (c : RCond) (body : List RStmt)
  | breakS (loc : Nat)
  | forS (loc : Nat) (body : List RStmt)
  | importS (loc : Nat) (modName : String)
  | printS (loc : Nat) (e : RExpr)

/-- A named kernel: a raw body in the restricted grammar. -/
structure Kernel where
  name : String
  body : List RStmt

/-! ## Validated intermediate representation -/

/-- Validated kernel expressions (only permitted constructs). -/
inductive IExpr where
  | lit (v : Scalar)
  | localVar (name : String)
  | particleGet (fld : PVar)
  | binop (op : BinOp) (a b : IExpr)
  | mathCall (fn : MathFn) (arg : IExpr)
  | randCall (fn : RandFn)
  | sampleAt (fld : String) (t d la lo : IExpr)
  | sampleHere (fld : String)

/-- Validated boolean conditions. -/
inductive ICond where
  | cmp (op : CmpOp) (a b : IExpr)
  | andC (a b : ICond)
  | orC (a b : ICond)
  | notC (a : ICond)

/-- Validated kernel statements (the intermediate representation fed to
both execution backends). -/
inductive IStmt where
  | assignLocal (name : String) (e : IExpr)
  | addDelta (df : DeltaField) (e : IExpr)
  | assignVar (name : String) (e : IExpr)
  | ifS (c : ICond) (thn els : List IStmt)
  | whileS (c : ICond) (body : List IStmt)
  | breakS
  | printS (e : IExpr)

/-- Grammar rejection: names the offending construct and its location. -/
structure KernelGrammarError where
  construct : String
  loc : Nat
deriving DecidableEq

/-- Display name of a position field, used in rejection messages. -/
def PosField.fieldName : PosField → String
  | .lon => "lon" | .lat => "lat" | .depth => "depth" | .time => "time"

/-! ## Grammar validator -/

/-- Sequencing of validation results: stop at the first rejection. -/
def thenV {α β : Type} (v : Except KernelGrammarError α)
    (w : α → Except KernelGrammarError β) : Except KernelGrammarError β :=
  match v with
  | .error er => .error er
  | .ok x => w x

/-- Modelled from the spec: validation of one raw expression at source
location `loc`; arbitrary function calls and collection literals are
rejected with a `KernelGrammarError`. -/
def validateExpr (loc : Nat) : RExpr → Except KernelGrammarError IExpr
  | .lit v => .ok (.lit v)
  | .localVar n => .ok (.localVar n)
  | .particleGet f => .ok (.particleGet f)
  | .binop op a b =>
    thenV (validateExpr loc a) fun ia =>
    thenV (validateExpr loc b) fun ib => .ok (.binop op ia ib)
  | .mathCall fn a =>
    thenV (validateExpr loc a) fun ia => .ok (.mathCall fn ia)
  | .randCall fn => .ok (.randCall fn)
  | .sampleAt fld t d la lo =>
    thenV (validateExpr loc t) fun it =>
    thenV (validateExpr loc d) fun idp =>
    thenV (validateExpr loc la) fun ila =>
    thenV (validateExpr loc lo) fun ilo => .ok (.sampleAt fld it idp ila ilo)
  | .sampleHere fld => .ok (.sampleHere fld)
  | .anyCall fn _ => .error ⟨"call to function " ++ fn, loc⟩
  | .collection _ => .error ⟨"collection literal", loc⟩

/-- Validation of a raw condition at source location `loc`. -/
def validateCond (loc : Nat) : RCond → Except KernelGrammarError ICond
  | .cmp op a b =>
    thenV (validateExpr loc a) fun ia =>
    thenV (validateExpr loc b) fun ib => .ok (.cmp op ia ib)
  | .andC a b =>
    thenV (validateCond loc a) fun ia =>
    thenV (validateCond loc b) fun ib => .ok (.andC ia ib)
  | .orC a b =>
    thenV (validateCond loc a) fun ia =>
    thenV (validateCond loc b) fun ib => .ok (.orC ia ib)
  | .notC a =>
    thenV (validateCond loc a) fun ia => .ok (.notC ia)

/-- Modelled from the spec: validation of a raw statement list.  Direct
mutation of a particle position field, `for` loops, imports, `break`
outside a loop, and every disallowed expression construct fail with a
`KernelGrammarError` naming the offending construct and its source
location; on success the validated intermediate representation is
produced. -/
def validateStmts (inLoop : Bool) : List RStmt → Except KernelGrammarError (List IStmt)
  | [] => .ok []
  | .assignLocal loc n e :: rest =>
    thenV (validateExpr loc e) fun ie =>
    thenV (validateStmts inLoop rest) fun irest => .ok (.assignLocal n ie :: irest)
  | .addDelta loc df e :: rest =>
    thenV (validateExpr loc e) fun ie =>
    thenV (validateStmts inLoop rest) fun irest => .ok (.addDelta df ie :: irest)
  | .assignVar loc n e :: rest =>
    thenV (validateExpr loc e) fun ie =>
    thenV (validateStmts inLoop rest) fun irest => .ok (.assignVar n ie :: irest)
  | .assignPos loc pf _ :: _ =>
    .error ⟨"direct mutation of particle position field " ++ pf.fieldName, loc⟩
  | .ifS loc c thn els :: rest =>
    thenV (validateCond loc c) fun ic =>
    thenV (validateStmts inLoop thn) fun ithn =>
    thenV (validateStmts inLoop els) fun iels =>
    thenV (validateStmts inLoop rest) fun irest => .ok (.ifS ic ithn iels :: irest)
  | .whileS loc c body :: rest =>
    thenV (validateCond loc c) fun ic =>
    thenV (validateStmts true body) fun ibody =>
    thenV (validateStmts inLoop rest) fun irest => .ok (.whileS ic ibody :: irest)
  | .breakS loc :: rest =>
    if inLoop then
      thenV (validateStmts inLoop rest) fun irest => .ok (.breakS :: irest)
    else .error ⟨"break outside loop", loc⟩
  | .forS loc _ :: _ => .error ⟨"for loop", loc⟩
  | .importS loc m :: _ => .error ⟨"import of module " ++ m, loc⟩
  | .printS loc e :: rest =>
    thenV (validateExpr loc e) fun ie =>
    thenV (validateStmts inLoop rest) fun irest => .ok (.printS ie :: irest)
termination_by ss => sizeOf ss

/-- Modelled from the spec: chain validation — each kernel body is
validated in order; any rejection aborts the whole chain build with no
partial result. -/
def validateChain : List Kernel → Except KernelGrammarError (List (List IStmt))
  | [] => .ok []
  | k :: ks =>
    thenV (validateStmts false k.body) fun ib =>
    thenV (validateChain ks) fun irest => .ok (ib :: irest)

/-! ## Disallowed-construct occurrences and validator correctness -/

/-- Disallowed constructs in a raw expression, in validation order. -/
def occExpr : RExpr → List String
  | .lit _ => []
  | .localVar _ => []
  | .particleGet _ => []
  | .binop _ a b => occExpr a ++ occExpr b
  | .mathCall _ a => occExpr a
  | .randCall _ => []
  | .sampleAt _ t d la lo => occExpr t ++ (occExpr d ++ (occExpr la ++ occExpr lo))
  | .sampleHere _ => []
  | .anyCall fn _ => ["call to function " ++ fn]
  | .collection _ => ["collection literal"]

/-- Disallowed constructs in a raw condition, in validation order. -/
def occCond : RCond → List String
  | .cmp _ a b => occExpr a ++ occExpr b
  | .andC a b => occCond a ++ occCond b
  | .orC a b => occCond a ++ occCond b
  | .notC a => occCond a

/-- Disallowed constructs of a raw statement list with their source
locations, in validation order; collection stops at a construct that is
disallowed outright, exactly as validation does. -/
def occStmts (inLoop : Bool) : List RStmt → List (String × Nat)
  | [] => []
  | .assignLocal loc _ e :: rest =>
    (occExpr e).map (fun c => (c, loc)) ++ occStmts inLoop rest
  | .addDelta loc _ e :: rest =>
    (occExpr e).map (fun c => (c, loc)) ++ occStmts inLoop rest
  | .assignVar loc _ e :: rest =>
    (occExpr e).map (fun c => (c, loc)) ++ occStmts inLoop rest
  | .assignPos loc pf _ :: _ =>
    [("direct mutation of particle position field " ++ pf.fieldName, loc)]
  | .ifS loc c thn els :: rest =>
    (occCond c).map (fun s => (s, loc)) ++
      (occStmts inLoop thn ++ (occStmts inLoop els ++ occStmts inLoop rest))
  | .whileS loc c body :: rest =>
    (occCond c).map (fun s => (s, loc)) ++
      (occStmts true body ++ occStmts inLoop rest)
  | .breakS loc :: rest =>
    if inLoop then occStmts inLoop rest else [("break outside loop", loc)]
  | .forS loc _ :: _ => [("for loop", loc)]
  | .importS loc m :: _ => [("import of module " ++ m, loc)]
  | .printS loc e :: rest =>
    (occExpr e).map (fun c => (c, loc)) ++ occStmts inLoop rest
termination_by ss => sizeOf ss

/-- Disallowed constructs of a whole kernel chain, in validation order. -/
def occChain : List Kernel → List (String × Nat)
  | [] => []
  | k :: ks => occStmts false k.body ++ occChain ks

/-- Correspondence between a validation result and an occurrence list: no
occurrences means success, otherwise the first occurrence is the reported
rejection. -/
def OccSpec {α : Type} (v : Except KernelGrammarError α)
    (os : List (String × Nat)) : Prop :=
  match os with
  | [] => ∃ x, v = .ok x
  | (c, l) :: _ => v = .error ⟨c, l⟩

lemma occSpec_ok {α : Type} (x : α) : OccSpec (.ok x) [] := ⟨x, rfl⟩

lemma occSpec_thenV {α β : Type} {v : Except KernelGrammarError α}
    {w : α → Except KernelGrammarError β} {os os' : List (String × Nat)}
    (h1 : OccSpec v os) (h2 : ∀ x, v = .ok x → OccSpec (w x) os') :
    OccSpec (thenV v w) (os ++ os') := by
  cases os with
  | nil =>
    obtain ⟨x, hx⟩ := h1
    simpa [thenV, hx] using h2 x hx
  | cons p rest =>
    obtain ⟨c, l⟩ := p
    simp only [OccSpec] at h1
    simp [OccSpec, thenV, h1]

lemma occSpec_thenV_ok {α β : Type} {v : Except KernelGrammarError α}
    {w : α → Except KernelGrammarError β} {os : List (String × Nat)}
    (h1 : OccSpec v os) (h2 : ∀ x, ∃ y, w x = .ok y) :
    OccSpec (thenV v w) os := by
  cases os with
  | nil =>
    obtain ⟨x, hx⟩ := h1
    obtain ⟨y, hy⟩ := h2 x
    exact ⟨y, by simp [thenV, hx, hy]⟩
  | cons p rest =>
    obtain ⟨c, l⟩ := p
    simp only [OccSpec] at h1 ⊢
    simp [thenV, h1]

lemma occSpec_validateExpr (loc : Nat) (e : RExpr) :
    OccSpec (validateExpr loc e) ((occExpr e).map (fun c => (c, loc))) := by
  refine validateExpr.induct loc
    (motive := fun e =>
      OccSpec (validateExpr loc e) ((occExpr e).map (fun c => (c, loc))))
    ?_ ?_ ?_ ?_ ?_ ?_ ?_ ?_ ?_ ?_ e
  · intro v
    simp only [validateExpr, occExpr, List.map_nil]
    exact occSpec_ok _
  · intro n
    simp only [validateExpr, occExpr, List.map_nil]
    exact occSpec_ok _
  · intro f
    simp only [validateExpr, occExpr, List.map_nil]
    exact occSpec_ok _
  · intro op a b iha ihb
    simp only [validateExpr, occExpr, List.map_append]
    exact occSpec_thenV iha fun ia _ =>
      occSpec_thenV_ok ihb fun ib => ⟨_, rfl⟩
  · intro fn a iha
    simp only [validateExpr, occExpr]
    exact occSpec_thenV_ok iha fun ia => ⟨_, rfl⟩
  · intro fn
    simp only [validateExpr, occExpr, List.map_nil]
    exact occSpec_ok _
  · intro fld t d la lo iht ihd ihla ihlo
    simp only [validateExpr, occExpr, List.map_append]
    refine occSpec_thenV iht fun it _ => ?_
    refine occSpec_thenV ihd fun idp _ => ?_
    refine occSpec_thenV ihla fun ila _ => ?_
    exact occSpec_thenV_ok ihlo fun ilo => ⟨_, rfl⟩
  · intro fld
    simp only [validateExpr, occExpr, List.map_nil]
    exact occSpec_ok _
  · intro fn args
    simp [validateExpr, occExpr, OccSpec]
  · intro elems
    simp [validateExpr, occExpr, OccSpec]

lemma occSpec_validateCond (loc : Nat) (c : RCond) :
    OccSpec (validateCond loc c) ((occCond c).map (fun s => (s, loc))) := by
  induction c with
  | cmp op a b =>
    simp only [validateCond, occCond, List.map_append]
    refine occSpec_thenV (occSpec_validateExpr loc a) fun ia _ => ?_
    exact occSpec_thenV_ok (occSpec_validateExpr loc b) fun ib => ⟨_, rfl⟩
  | andC a b iha ihb =>
    simp only [validateCond, occCond, List.map_append]
    exact occSpec_thenV iha fun ia _ =>
      occSpec_thenV_ok ihb fun ib => ⟨_, rfl⟩
  | orC a b iha ihb =>
    simp only [validateCond, occCond, List.map_append]
    exact occSpec_thenV iha fun ia _ =>
      occSpec_thenV_ok ihb fun ib => ⟨_, rfl⟩
  | notC a iha =>
    simp only [validateCond, occCond]
    exact occSpec_thenV_ok iha fun ia => ⟨_, rfl⟩

lemma occSpec_validateStmts (inLoop : Bool) (ss : List RStmt) :
    OccSpec (validateStmts inLoop ss) (occStmts inLoop ss) := by
  induction inLoop, ss using validateStmts.induct with
  | case1 inLoop =>
    simp only [validateStmts, occStmts]
    exact occSpec_ok _
  | case2 inLoop loc n e rest ih =>
    simp only [validateStmts, occStmts]
    refine occSpec_thenV (occSpec_validateExpr loc e) fun ie _ => ?_
    exact occSpec_thenV_ok ih fun irest => ⟨_, rfl⟩
  | case3 inLoop loc df e rest ih =>
    simp only [validateStmts, occStmts]
    refine occSpec_thenV (occSpec_validateExpr loc e) fun ie _ => ?_
    exact occSpec_thenV_ok ih fun irest => ⟨_, rfl⟩
  | case4 inLoop loc n e rest ih =>
    simp only [validateStmts, occStmts]
    refine occSpec_thenV (occSpec_validateExpr loc e) fun ie _ => ?_
    exact occSpec_thenV_ok ih fun irest => ⟨_, rfl⟩
  | case5 inLoop loc pf e rest =>
    simp [validateStmts, occStmts, OccSpec]
  | case6 inLoop loc c thn els rest ihthn ihels ihrest =>
    simp only [validateStmts, occStmts]
    refine occSpec_thenV (occSpec_validateCond loc c) fun ic _ => ?_
    refine occSpec_thenV ihthn fun ithn _ => ?_
    refine occSpec_thenV ihels fun iels _ => ?_
    exact occSpec_thenV_ok ihrest fun irest => ⟨_, rfl⟩
  | case7 inLoop loc c body rest ihbody ihrest =>
    simp only [validateStmts, occStmts]
    refine occSpec_thenV (occSpec_validateCond loc c) fun ic _ => ?_
    refine occSpec_thenV ihbody fun ibody _ => ?_
    exact occSpec_thenV_ok ihrest fun irest => ⟨_, rfl⟩
  | case8 loc rest ih =>
    simp only [validateStmts, occStmts, if_true]
    exact occSpec_thenV_ok ih fun irest => ⟨_, rfl⟩
  | case9 inLoop loc rest hin =>
    simp [validateStmts, occStmts, if_neg hin, OccSpec]
  | case10 inLoop loc body rest =>
    simp [validateStmts, occStmts, OccSpec]
  | case11 inLoop loc m rest =>
    simp [validateStmts, occStmts, OccSpec]
  | case12 inLoop loc e rest ih =>
    simp only [validateStmts, occStmts]
    refine occSpec_thenV (occSpec_validateExpr loc e) fun ie _ => ?_
    exact occSpec_thenV_ok ih fun irest => ⟨_, rfl⟩

lemma occSpec_validateChain (ks : List Kernel) :
    OccSpec (validateChain ks) (occChain ks) := by
  induction ks with
  | nil => exact occSpec_ok _
  | cons k rest ih =>
    simp only [validateChain, occChain]
    refine occSpec_thenV (occSpec_validateStmts false k.body) fun ib _ => ?_
    exact occSpec_thenV_ok ih fun irest => ⟨_, rfl⟩

/-- Does a raw statement list contain a direct write to a particle
position field anywhere, including nested blocks? -/
def hasPosWriteL : List RStmt → Bool
  | [] => false
  | .assignLocal _ _ _ :: rest => hasPosWriteL rest
  | .addDelta _ _ _ :: rest => hasPosWriteL rest
  | .assignVar _ _ _ :: rest => hasPosWriteL rest
  | .assignPos _ _ _ :: _ => true
  | .ifS _ _ thn els :: rest =>
    hasPosWriteL thn || (hasPosWriteL els || hasPosWriteL rest)
  | .whileS _ _ body :: rest => hasPosWriteL body || hasPosWriteL rest
  | .breakS _ :: rest => hasPosWriteL rest
  | .forS _ body :: rest => hasPosWriteL body || hasPosWriteL rest
  | .importS _ _ :: rest => hasPosWriteL rest
  | .printS _ _ :: rest => hasPosWriteL rest
termination_by ss => sizeOf ss

lemma occStmts_ne_nil_of_hasPosWrite (inLoop : Bool) (ss : List RStmt)
    (h : hasPosWriteL ss = true) : occStmts inLoop ss ≠ [] := by
  induction inLoop, ss using validateStmts.induct with
  | case1 inLoop => simp [hasPosWriteL] at h
  | case2 inLoop loc n e rest ih =>
    simp only [hasPosWriteL] at h
    simp only [occStmts]
    intro hc
    exact ih h (List.append_eq_nil.mp hc).2
  | case3 inLoop loc df e rest ih =>
    simp only [hasPosWriteL] at h
    simp only [occStmts]
    intro hc
    exact ih h (List.append_eq_nil.mp hc).2
  | case4 inLoop loc n e rest ih =>
    simp only [hasPosWriteL] at h
    simp only [occStmts]
    intro hc
    exact ih h (List.append_eq_nil.mp hc).2
  | case5 inLoop loc pf e rest => simp [occStmts]
  | case6 inLoop loc c thn els rest ihthn ihels ihrest =>
    simp only [hasPosWriteL, Bool.or_eq_true] at h
    simp only [occStmts]
    intro hc
    have h1 := (List.append_eq_nil.mp hc).2
    have h2 := List.append_eq_nil.mp h1
    have h3 := List.append_eq_nil.mp h2.2
    rcases h with h | h | h
    · exact ihthn h h2.1
    · exact ihels h h3.1
    · exact ihrest h h3.2
  | case7 inLoop loc c body rest ihbody ihrest =>
    simp only [hasPosWriteL, Bool.or_eq_true] at h
    simp only [occStmts]
    intro hc
    have h1 := (List.append_eq_nil.mp hc).2
    have h2 := List.append_eq_nil.mp h1
    rcases h with h | h
    · exact ihbody h h2.1
    · exact ihrest h h2.2
  | case8 loc rest ih =>
    simp only [hasPosWriteL] at h
    simp only [occStmts, if_true]
    exact ih h
  | case9 inLoop loc rest hin =>
    simp [occStmts, if_neg hin]
  | case10 inLoop loc body rest => simp [occStmts]
  | case11 inLoop loc m rest => simp [occStmts]
  | case12 inLoop loc e rest ih =>
    simp only [hasPosWriteL] at h
    simp only [occStmts]
    intro hc
    exact ih h (List.append_eq_nil.mp hc).2

lemma occChain_ne_nil_of_hasPosWrite (ks : List Kernel)
    (h : ∃ k, k ∈ ks ∧ hasPosWriteL k.body = true) : occChain ks ≠ [] := by
  obtain ⟨k, hk, hw⟩ := h
  induction ks with
  | nil => simp at hk
  | cons k0 rest ih =>
    simp only [occChain]
    intro hc
    have hc2 := List.append_eq_nil.mp hc
    rcases List.mem_cons.mp hk with rfl | hk0
    · exact occStmts_ne_nil_of_hasPosWrite false k.body hw hc2.1
    · exact ih hk0 hc2.2

/-- C2: a kernel body that directly mutates a particle position field —
or contains any other disallowed construct — makes chain validation fail
with a `KernelGrammarError` naming an offending construct together with
its source location, and no intermediate representation is built. -/
theorem grammar_rejects_disallowed (chain : List Kernel)
    (h : (∃ k, k ∈ chain ∧ hasPosWriteL k.body = true) ∨ occChain chain ≠ []) :
    ∃ e : KernelGrammarError, validateChain chain = .error e ∧
      (e.construct, e.loc) ∈ occChain chain ∧
      ∀ ir, validateChain chain ≠ .ok ir := by
  have hne : occChain chain ≠ [] := by
    rcases h with hp | h
    · exact occChain_ne_nil_of_hasPosWrite chain hp
    · exact h
  have hspec := occSpec_validateChain chain
  cases hocc : occChain chain with
  | nil => exact absurd hocc hne
  | cons p rest =>
    obtain ⟨c, l⟩ := p
    rw [hocc] at hspec
    simp only [OccSpec] at hspec
    refine ⟨⟨c, l⟩, hspec, ?_, ?_⟩
    · exact List.mem_cons_self _ _
    · intro ir hir
      rw [hspec] at hir
      exact Except.noConfusion hir

/-- Tutorial-style kernel updating a user variable; grammatically valid. -/
def ageKernel : Kernel :=
  ⟨"Age", [.assignVar 1 "age"
    (.binop .add (.particleGet (.uservar "age")) (.particleGet .dt))]⟩

/-- Kernel that directly mutates `particle.lon`; grammatically invalid. -/
def badMoveKernel : Kernel :=
  ⟨"Mover", [.assignPos 3 .lon (.lit 1)]⟩

/-- Witness for C2 on a concrete two-kernel chain. -/
theorem grammar_rejects_disallowed_witness :
    ∃ e : KernelGrammarError,
      validateChain [ageKernel, badMoveKernel] = .error e ∧
      (e.construct, e.loc) ∈ occChain [ageKernel, badMoveKernel] ∧
      ∀ ir, validateChain [ageKernel, badMoveKernel] ≠ .ok ir :=
  grammar_rejects_disallowed [ageKernel, badMoveKernel]
    (Or.inl ⟨badMoveKernel,
      List.mem_cons_of_mem _ (List.mem_cons_self _ _),
      by simp [badMoveKernel, hasPosWriteL]⟩)

/-! ## Particles, field sets and the evaluation context (spec sections 3, 4.4) -/

/-- Particle lifecycle status tags. -/
inductive Status where
  | active | error | deleted
deriving DecidableEq

/-- Modelled from the spec: a particle is a row of scalar state — position,
time, step size, a status tag, and user-declared variables.  The particle
store itself is absent from the sources. -/
structure Particle where
  pid : Nat
  lon : Scalar
  lat : Scalar
  depth : Scalar
  time : Scalar
  dt : Scalar
  status : Status
  vars : List (String × Scalar)
deriving DecidableEq

/-- Per-step delta accumulators for position and time. -/
structure Deltas where
  dlon : Scalar
  dlat : Scalar
  ddepth : Scalar
  dtime : Scalar
deriving DecidableEq

/-- Componentwise difference of two delta accumulators. -/
def Deltas.sub (a b : Deltas) : Deltas :=
  ⟨a.dlon - b.dlon, a.dlat - b.dlat, a.ddepth - b.ddepth, a.dtime - b.dtime⟩

/-- A named mapping of fields. -/
def FieldSet := List (String × Field)

/-- Field lookup by name. -/
def lookupField : FieldSet → String → Option Field
  | [], _ => none
  | (n, f) :: rest, n' => if n = n' then some f else lookupField rest n'

/-- Recoverable per-particle evaluation errors. -/
inductive KError where
  | outOfBounds | dataUnavailable | invalidName | fuelExhausted
deriving DecidableEq

/-- Is `x` inside the closed coordinate range of a monotonic axis? -/
def inAxis (axis : List Scalar) (x : Scalar) : Bool :=
  match axis.head?, axis.getLast? with
  | some a, some b => decide (a ≤ x) && decide (x ≤ b)
  | _, _ => false

/-- Modelled from the spec: bounds-checked sampling — out-of-domain
queries fail with a recoverable error, never a process crash. -/
def sampleChecked (f : Field) (t d la lo : Scalar) : Except KError Scalar :=
  if inAxis f.tAxis t && (inAxis f.dAxis d && (inAxis f.laAxis la && inAxis f.loAxis lo))
  then .ok (sample f t d la lo) else .error .outOfBounds

/-- Linear-congruential step of the deterministic random source. -/
def lcg (s : Nat) : Nat := (1103515245 * s + 12345) % 2147483648

/-- Value in [0, 1) drawn from the current random state. -/
def randValue (s : Nat) : Scalar := ((lcg s % 1000000 : Nat) : Scalar) / 1000000

/-- Modelled from the spec: the run seed, particle id and step index mix
into an explicit per-evaluation random state — an RNG handle threaded
through the evaluation context, seeded per run. -/
def mixSeed (seed pid stepIdx : Nat) : Nat :=
  lcg (seed + (1000003 * pid + 7919 * stepIdx))

/-- Lookup in an association list of named scalars. -/
def lookupAssoc : List (String × Scalar) → String → Option Scalar
  | [], _ => none
  | (k, v) :: rest, n => if k = n then some v else lookupAssoc rest n

/-- Insert-or-update in an association list of named scalars. -/
def setAssoc : List (String × Scalar) → String → Scalar → List (String × Scalar)
  | [], n, v => [(n, v)]
  | (k, w) :: rest, n, v =>
    if k = n then (k, v) :: rest else (k, w) :: setAssoc rest n v

/-- Evaluation context of one particle inside one time step: the particle
row (position read-only for kernels, user variables writable), the local
variables of the chain, the delta accumulators, and the random state. -/
structure EvalState where
  p : Particle
  locals : List (String × Scalar)
  deltas : Deltas
  rng : Nat

/-- Read one particle attribute. -/
def Particle.getAttr (p : Particle) : PVar → Except KError Scalar
  | .lon => .ok p.lon
  | .lat => .ok p.lat
  | .depth => .ok p.depth
  | .time => .ok p.time
  | .dt => .ok p.dt
  | .pid => .ok (p.pid : Scalar)
  | .uservar n =>
    match lookupAssoc p.vars n with
    | some v => .ok v
    | none => .error .invalidName

/-- Math allow-list application. -/
def mathApply (fn : MathFn) (x : Scalar) : Scalar :=
  match fn with
  | .fabs => |x|
  | .floor => ((⌊x⌋ : Int) : Scalar)
  | .ceil => ((⌈x⌉ : Int) : Scalar)

/-- Power with integral exponents; non-integral exponents yield 0. -/
def scalarPow (a b : Scalar) : Scalar := if b.den = 1 then a ^ b.num else 0

/-- Arithmetic operator application. -/
def binApply (op : BinOp) (a b : Scalar) : Scalar :=
  match op with
  | .add => a + b
  | .sub => a - b
  | .mul => a * b
  | .div => a / b
  | .pow => scalarPow a b

/-- Comparison operator application. -/
def cmpApply (op : CmpOp) (a b : Scalar) : Bool :=
  match op with
  | .lt => decide (a < b)
  | .le => decide (a ≤ b)
  | .gt => decide (b < a)
  | .ge => decide (b ≤ a)
  | .eq => decide (a = b)
  | .ne => decide (a ≠ b)

/-- Modelled from the spec: evaluation of a validated kernel expression in
the current context, threading the random state; field sampling issues
point queries against the field set and surfaces out-of-domain results as
recoverable errors. -/
def evalExpr (fs : FieldSet) (st : EvalState) : IExpr → Except KError (Scalar × Nat)
  | .lit v => .ok (v, st.rng)
  | .localVar n =>
    match lookupAssoc st.locals n with
    | some v => .ok (v, st.rng)
    | none => .error .invalidName
  | .particleGet fld =>
    match st.p.getAttr fld with
    | .ok v => .ok (v, st.rng)
    | .error e => .error e
  | .binop op a b =>
    match evalExpr fs st a with
    | .error e => .error e
    | .ok (va, r1) =>
      match evalExpr fs { st with rng := r1 } b with
      | .error e => .error e
      | .ok (vb, r2) => .ok (binApply op va vb, r2)
  | .mathCall fn a =>
    match evalExpr fs st a with
    | .error e => .error e
    | .ok (va, r1) => .ok (mathApply fn va, r1)
  | .randCall .random => .ok (randValue st.rng, lcg st.rng)
  | .sampleAt fld t d la lo =>
    match evalExpr fs st t with
    | .error e => .error e
    | .ok (vt, r1) =>
      match evalExpr fs { st with rng := r1 } d with
      | .error e => .error e
      | .ok (vd, r2) =>
        match evalExpr fs { st with rng := r2 } la with
        | .error e => .error e
        | .ok (vla, r3) =>
          match evalExpr fs { st with rng := r3 } lo with
          | .error e => .error e
          | .ok (vlo, r4) =>
            match lookupField fs fld with
            | none => .error .dataUnavailable
            | some f =>
              match sampleChecked f vt vd vla vlo with
              | .ok v => .ok (v, r4)
              | .error e => .error e
  | .sampleHere fld =>
    match lookupField fs fld with
    | none => .error .dataUnavailable
    | some f =>
      match sampleChecked f st.p.time st.p.depth st.p.lat st.p.lon with
      | .ok v => .ok (v, st.rng)
      | .error e => .error e

/-- Evaluation of a validated condition, threading the random state. -/
def evalCond (fs : FieldSet) (st : EvalState) : ICond → Except KError (Bool × Nat)
  | .cmp op a b =>
    match evalExpr fs st a with
    | .error e => .error e
    | .ok (va, r1) =>
      match evalExpr fs { st with rng := r1 } b with
      | .error e => .error e
      | .ok (vb, r2) => .ok (cmpApply op va vb, r2)
  | .andC a b =>
    match evalCond fs st a with
    | .error e => .error e
    | .ok (ba, r1) =>
      match evalCond fs { st with rng := r1 } b with
      | .error e => .error e
      | .ok (bb, r2) => .ok (ba && bb, r2)
  | .orC a b =>
    match evalCond fs st a with
    | .error e => .error e
    | .ok (ba, r1) =>
      match evalCond fs { st with rng := r1 } b with
      | .error e => .error e
      | .ok (bb, r2) => .ok (ba || bb, r2)
  | .notC a =>
    match evalCond fs st a with
    | .error e => .error e
    | .ok (ba, r1) => .ok (!ba, r1)

/-- Accumulate a value into one delta accumulator. -/
def Deltas.bump (d : Deltas) (df : DeltaField) (v : Scalar) : Deltas :=
  match df with
  | .dlon => { d with dlon := d.dlon + v }
  | .dlat => { d with dlat := d.dlat + v }
  | .ddepth => { d with ddepth := d.ddepth + v }
  | .dtime => { d with dtime := d.dtime + v }

lemma ICond.sizeOf_pos (c : ICond) : 1 ≤ sizeOf c := by
  cases c <;> simp_arith

/-- Work items of the statement interpreter: a statement list, a single
statement, or an iterating while loop. -/
inductive Task where
  | stmts (ss : List IStmt)
  | one (s : IStmt)
  | loop (c : ICond) (body : List IStmt)

/-- Modelled from the spec: the statement interpreter shared by both
execution backends.  Statements write only to locals, user variables and
delta accumulators — never to position fields.  The Bool result reports
whether a `break` escaped the current statement list; `fuel` bounds loop
iterations so the embedding stays total. -/
def exec (fs : FieldSet) : Nat → Task → EvalState → Except KError (EvalState × Bool)
  | _, .stmts [], st => .ok (st, false)
  | fuel, .stmts (s :: rest), st =>
    match exec fs fuel (.one s) st with
    | .error e => .error e
    | .ok (st1, br) =>
      if br then .ok (st1, true) else exec fs fuel (.stmts rest) st1
  | _, .one (.assignLocal n e), st =>
    match evalExpr fs st e with
    | .error er => .error er
    | .ok (v, r) => .ok ({ st with locals := setAssoc st.locals n v, rng := r }, false)
  | _, .one (.addDelta df e), st =>
    match evalExpr fs st e with
    | .error er => .error er
    | .ok (v, r) => .ok ({ st with deltas := st.deltas.bump df v, rng := r }, false)
  | _, .one (.assignVar n e), st =>
    match evalExpr fs st e with
    | .error er => .error er
    | .ok (v, r) =>
      .ok ({ st with p := { st.p with vars := setAssoc st.p.vars n v }, rng := r }, false)
  | fuel, .one (.ifS c thn els), st =>
    match evalCond fs st c with
    | .error er => .error er
    | .ok (b, r) =>
      if b then exec fs fuel (.stmts thn) { st with rng := r }
      else exec fs fuel (.stmts els) { st with rng := r }
  | fuel, .one (.whileS c body), st => exec fs fuel (.loop c body) st
  | _, .one .breakS, st => .ok (st, true)
  | _, .one (.printS e), st =>
    match evalExpr fs st e with
    | .error er => .error er
    | .ok (_, r) => .ok ({ st with rng := r }, false)
  | fuel, .loop c body, st =>
    match evalCond fs st c with
    | .error er => .error er
    | .ok (b, r) =>
      if b then
        match exec fs fuel (.stmts body) { st with rng := r } with
        | .error er => .error er
        | .ok (st1, br) =>
          if br then .ok (st1, false)
          else if h : fuel = 0 then .error .fuelExhausted
          else exec fs (fuel - 1) (.loop c body) st1
      else .ok ({ st with rng := r }, false)
termination_by fuel t _ => (fuel, sizeOf t)
decreasing_by
  all_goals first
    | decreasing_tactic
    | (have hc : 1 ≤ sizeOf c := ICond.sizeOf_pos c
       decreasing_tactic)

/-- Modelled from the spec: interpreted (tree-walking) execution of a
kernel chain — each kernel body runs in order, all inside one evaluation
context, so later kernels observe locals, user-variable updates and the
random state left by earlier kernels. -/
def evalChain (fs : FieldSet) (fuel : Nat) : List (List IStmt) → EvalState → Except KError EvalState
  | [], st => .ok st
  | b :: bs, st =>
    match exec fs fuel (.stmts b) st with
    | .error er => .error er
    | .ok (st1, _) => evalChain fs fuel bs st1

/-- Fresh evaluation context for one particle at one step: empty local
environment, zeroed delta accumulators, per-particle random state. -/
def initState (seed stepIdx : Nat) (p : Particle) : EvalState :=
  { p := p, locals := [], deltas := ⟨0, 0, 0, 0⟩, rng := mixSeed seed p.pid stepIdx }

/-- Modelled from the spec: atomic commit after the whole chain ran —
summed deltas are applied once to position, and time advances by `dt`
plus the accumulated time delta. -/
def commitState (st : EvalState) : Particle :=
  { st.p with
    lon := st.p.lon + st.deltas.dlon
    lat := st.p.lat + st.deltas.dlat
    depth := st.p.depth + st.deltas.ddepth
    time := st.p.time + st.p.dt + st.deltas.dtime }

/-- Modelled from the spec: one interpreted time step of one particle —
inactive particles are untouched; an erring chain turns the particle to
`Error` with its deltas for the step discarded. -/
def stepParticle (fs : FieldSet) (fuel seed stepIdx : Nat)
    (chain : List (List IStmt)) (p : Particle) : Particle :=
  if p.status = .active then
    match evalChain fs fuel chain (initState seed stepIdx p) with
    | .ok st => commitState st
    | .error _ => { p with status := .error }
  else p

/-- One interpreted time step of a whole particle batch. -/
def stepBatch (fs : FieldSet) (fuel seed stepIdx : Nat)
    (chain : List (List IStmt)) (ps : List Particle) : List Particle :=
  ps.map (stepParticle fs fuel seed stepIdx chain)

/-- Interpreted run from a given step index for `n` steps. -/
def runFrom (fs : FieldSet) (fuel seed : Nat) (chain : List (List IStmt)) :
    Nat → Nat → List Particle → List Particle
  | _, 0, ps => ps
  | stepIdx, n + 1, ps =>
    runFrom fs fuel seed chain (stepIdx + 1) n (stepBatch fs fuel seed stepIdx chain ps)

/-- Modelled from the spec: the interpreted (tree-walking, vectorized)
execution mode over `n` time steps. -/
def runInterp (fs : FieldSet) (fuel seed : Nat) (chain : List (List IStmt))
    (n : Nat) (ps : List Particle) : List Particle :=
  runFrom fs fuel seed chain 0 n ps

/-- Modelled from the spec: deterministic code generation — the kernels of
a chain concatenate into one generated function body, invoked once per
particle per step, in chain order. -/
def generate (chain : List (List IStmt)) : List IStmt := chain.flatten

/-- One compiled-mode time step of one particle: the generated single
body runs in one evaluation context. -/
def stepParticleC (fs : FieldSet) (fuel seed stepIdx : Nat)
    (code : List IStmt) (p : Particle) : Particle :=
  if p.status = .active then
    match exec fs fuel (.stmts code) (initState seed stepIdx p) with
    | .ok (st, _) => commitState st
    | .error _ => { p with status := .error }
  else p

/-- One compiled-mode time step of a whole particle batch. -/
def stepBatchC (fs : FieldSet) (fuel seed stepIdx : Nat)
    (code : List IStmt) (ps : List Particle) : List Particle :=
  ps.map (stepParticleC fs fuel seed stepIdx code)

/-- Compiled-mode run from a given step index for `n` steps. -/
def runFromC (fs : FieldSet) (fuel seed : Nat) (code : List IStmt) :
    Nat → Nat → List Particle → List Particle
  | _, 0, ps => ps
  | stepIdx, n + 1, ps =>
    runFromC fs fuel seed code (stepIdx + 1) n (stepBatchC fs fuel seed stepIdx code ps)

/-- Modelled from the spec: the compiled (JIT) execution mode — the chain
is lowered once by `generate` and the generated body drives every step. -/
def runCompiled (fs : FieldSet) (fuel seed : Nat) (chain : List (List IStmt))
    (n : Nat) (ps : List Particle) : List Particle :=
  runFromC fs fuel seed (generate chain) 0 n ps

/-! ## Position fields are untouched while a chain runs -/

/-- All particle attributes except user variables agree. -/
def PosEq (a b : Particle) : Prop :=
  b.pid = a.pid ∧ b.lon = a.lon ∧ b.lat = a.lat ∧ b.depth = a.depth ∧
  b.time = a.time ∧ b.dt = a.dt ∧ b.status = a.status

lemma posEq_refl (a : Particle) : PosEq a a := ⟨rfl, rfl, rfl, rfl, rfl, rfl, rfl⟩

lemma posEq_trans {a b c : Particle} (h1 : PosEq a b) (h2 : PosEq b c) : PosEq a c := by
  obtain ⟨e1, e2, e3, e4, e5, e6, e7⟩ := h1
  obtain ⟨f1, f2, f3, f4, f5, f6, f7⟩ := h2
  exact ⟨f1.trans e1, f2.trans e2, f3.trans e3, f4.trans e4,
    f5.trans e5, f6.trans e6, f7.trans e7⟩

lemma exec_preserves_pos (fs : FieldSet) :
    ∀ (fuel : Nat) (t : Task) (st : EvalState), ∀ st1 br,
      exec fs fuel t st = .ok (st1, br) → PosEq st.p st1.p := by
  intro fuel t st
  induction fuel, t, st using exec.induct fs with
  | case1 x st =>
    intro st1 br h
    simp only [exec] at h
    obtain ⟨h1, h2⟩ := Prod.mk.injEq .. ▸ (Except.ok.injEq .. ▸ h)
    rcases h1
    exact posEq_refl _
  | case2 fuel s rest st e herr ih =>
    intro st1 br h
    simp [exec, herr] at h
  | case3 fuel s rest st st2 heq ih =>
    intro st1 br h
    simp only [exec, heq] at h
    simp at h
    obtain ⟨h1, h2⟩ := h
    subst h1
    exact ih _ _ heq
  | case4 fuel s rest st st2 br2 heq hbr ih1 ih2 =>
    intro st1 br h
    simp only [exec, heq] at h
    rw [if_neg hbr] at h
    exact posEq_trans (ih1 _ _ heq) (ih2 _ _ h)
  | case5 x n e st er herr =>
    intro st1 br h
    simp [exec, herr] at h
  | case6 x n e st vb r2 heq =>
    intro st1 br h
    simp only [exec, heq] at h
    simp at h
    obtain ⟨h1, h2⟩ := h
    subst h1
    exact posEq_refl _
  | case7 x df e st er herr =>
    intro st1 br h
    simp [exec, herr] at h
  | case8 x df e st vb r2 heq =>
    intro st1 br h
    simp only [exec, heq] at h
    simp at h
    obtain ⟨h1, h2⟩ := h
    subst h1
    exact posEq_refl _
  | case9 x n e st er herr =>
    intro st1 br h
    simp [exec, herr] at h
  | case10 x n e st vb r2 heq =>
    intro st1 br h
    simp only [exec, heq] at h
    simp at h
    obtain ⟨h1, h2⟩ := h
    subst h1
    exact ⟨rfl, rfl, rfl, rfl, rfl, rfl, rfl⟩
  | case11 fuel c thn els st er herr =>
    intro st1 br h
    simp [exec, herr] at h
  | case12 fuel c thn els st r2 heq ih =>
    intro st1 br h
    simp only [exec, heq] at h
    simp at h
    exact ih _ _ h
  | case13 fuel c thn els st bb r2 heq hneg ih =>
    intro st1 br h
    simp only [exec, heq] at h
    rw [if_neg hneg] at h
    exact ih _ _ h
  | case14 fuel c body st ih =>
    intro st1 br h
    rw [exec.eq_7] at h
    exact ih _ _ h
  | case15 x st =>
    intro st1 br h
    simp only [exec] at h
    simp at h
    obtain ⟨h1, h2⟩ := h
    subst h1
    exact posEq_refl _
  | case16 x e st er herr =>
    intro st1 br h
    simp [exec, herr] at h
  | case17 x e st vb r2 heq =>
    intro st1 br h
    simp only [exec, heq] at h
    simp at h
    obtain ⟨h1, h2⟩ := h
    subst h1
    exact posEq_refl _
  | case18 fuel c body st er herr =>
    intro st1 br h
    simp [exec, herr] at h
  | case19 fuel c body st r2 er hbody hcond ih =>
    intro st1 br h
    simp [exec, hcond, hbody] at h
  | case20 fuel c body st r2 st2 hcond hbody ih =>
    intro st1 br h
    rw [exec.eq_10, hcond] at h
    simp [hbody] at h
    obtain ⟨h1, h2⟩ := h
    subst h1
    exact ih _ _ hbody
  | case21 c body st r2 st2 br2 hbr hbody hcond ih =>
    intro st1 br h
    rw [exec.eq_10, hcond] at h
    simp [hbody, hbr] at h
  | case22 fuel c body st r2 st2 br2 hbody hbr hfuel hcond ihbody ihloop =>
    intro st1 br h
    rw [exec.eq_10, hcond] at h
    simp [hbody, hbr, hfuel] at h
    exact posEq_trans (ihbody _ _ hbody) (ihloop _ _ h)
  | case23 fuel c body st bb r2 hcond hneg =>
    intro st1 br h
    rw [exec.eq_10, hcond] at h
    simp [hneg] at h
    obtain ⟨h1, h2⟩ := h
    subst h1
    exact posEq_refl _

lemma evalChain_preserves_pos (fs : FieldSet) (fuel : Nat) :
    ∀ (chain : List (List IStmt)) (st st1 : EvalState),
      evalChain fs fuel chain st = .ok st1 → PosEq st.p st1.p := by
  intro chain
  induction chain with
  | nil =>
    intro st st1 h
    simp only [evalChain, Except.ok.injEq] at h
    subst h
    exact posEq_refl _
  | cons b bs ih =>
    intro st st1 h
    simp only [evalChain] at h
    cases hb : exec fs fuel (.stmts b) st with
    | error e => rw [hb] at h; exact absurd h (by simp)
    | ok pr =>
      obtain ⟨stm, br⟩ := pr
      rw [hb] at h
      exact posEq_trans (exec_preserves_pos fs fuel _ st stm br hb) (ih stm st1 h)

/-! ## Generated code runs like the kernel-by-kernel interpretation -/

lemma exec_stmts_append (fs : FieldSet) (fuel : Nat) :
    ∀ (a b : List IStmt) (st : EvalState),
      exec fs fuel (.stmts (a ++ b)) st =
        match exec fs fuel (.stmts a) st with
        | .error e => .error e
        | .ok (st1, br) => if br then .ok (st1, true) else exec fs fuel (.stmts b) st1 := by
  intro a
  induction a with
  | nil =>
    intro b st
    simp [exec.eq_1]
  | cons s rest ih =>
    intro b st
    rw [List.cons_append, exec.eq_2, exec.eq_2]
    cases hone : exec fs fuel (.one s) st with
    | error e => simp
    | ok pr =>
      obtain ⟨st1, br⟩ := pr
      cases br with
      | true => simp
      | false => simp [ih b st1]

/-- Is every `break` of this statement list confined to a while body? -/
def breakFreeL : List IStmt → Bool
  | [] => true
  | .assignLocal _ _ :: rest => breakFreeL rest
  | .addDelta _ _ :: rest => breakFreeL rest
  | .assignVar _ _ :: rest => breakFreeL rest
  | .ifS _ thn els :: rest => breakFreeL thn && (breakFreeL els && breakFreeL rest)
  | .whileS _ _ :: rest => breakFreeL rest
  | .breakS :: _ => false
  | .printS _ :: rest => breakFreeL rest
termination_by ss => sizeOf ss

/-- Single-statement variant of `breakFreeL`. -/
def breakFreeS : IStmt → Bool
  | .ifS _ thn els => breakFreeL thn && breakFreeL els
  | .breakS => false
  | _ => true

lemma breakFreeL_cons (s : IStmt) (rest : List IStmt) :
    breakFreeL (s :: rest) = (breakFreeS s && breakFreeL rest) := by
  cases s <;> simp [breakFreeL, breakFreeS, Bool.and_assoc]

/-- Break-freedom requirement per work item. -/
def taskBreakFree : Task → Bool
  | .stmts ss => breakFreeL ss
  | .one s => breakFreeS s
  | .loop _ _ => true

lemma exec_no_break (fs : FieldSet) :
    ∀ (fuel : Nat) (t : Task) (st : EvalState), ∀ st1 br,
      taskBreakFree t = true → exec fs fuel t st = .ok (st1, br) → br = false := by
  intro fuel t st
  induction fuel, t, st using exec.induct fs with
  | case1 x st =>
    intro st1 br _ h
    rw [exec.eq_1] at h
    injection h with h1
    injection h1 with ha hb
    exact hb.symm
  | case2 fuel s rest st e herr ih =>
    intro st1 br _ h
    rw [exec.eq_2, herr] at h
    exact absurd h (by simp)
  | case3 fuel s rest st st2 heq ih =>
    intro st1 br hbf h
    have hs : breakFreeS s = true := by
      simp only [taskBreakFree, breakFreeL_cons, Bool.and_eq_true] at hbf
      exact hbf.1
    have := ih _ _ hs heq
    exact absurd this (by simp)
  | case4 fuel s rest st st2 br2 heq hbr ih1 ih2 =>
    intro st1 br hbf h
    simp only [exec.eq_2, heq] at h
    rw [if_neg hbr] at h
    have hrest : breakFreeL rest = true := by
      simp only [taskBreakFree, breakFreeL_cons, Bool.and_eq_true] at hbf
      exact hbf.2
    exact ih2 _ _ hrest h
  | case5 x n e st er herr =>
    intro st1 br _ h
    rw [exec.eq_3, herr] at h
    exact absurd h (by simp)
  | case6 x n e st vb r2 heq =>
    intro st1 br _ h
    rw [exec.eq_3, heq] at h
    injection h with h1
    injection h1 with ha hb
    exact hb.symm
  | case7 x df e st er herr =>
    intro st1 br _ h
    rw [exec.eq_4, herr] at h
    exact absurd h (by simp)
  | case8 x df e st vb r2 heq =>
    intro st1 br _ h
    rw [exec.eq_4, heq] at h
    injection h with h1
    injection h1 with ha hb
    exact hb.symm
  | case9 x n e st er herr =>
    intro st1 br _ h
    rw [exec.eq_5, herr] at h
    exact absurd h (by simp)
  | case10 x n e st vb r2 heq =>
    intro st1 br _ h
    rw [exec.eq_5, heq] at h
    injection h with h1
    injection h1 with ha hb
    exact hb.symm
  | case11 fuel c thn els st er herr =>
    intro st1 br _ h
    rw [exec.eq_6, herr] at h
    exact absurd h (by simp)
  | case12 fuel c thn els st r2 heq ih =>
    intro st1 br hbf h
    simp only [exec.eq_6, heq, if_true] at h
    have hthn : breakFreeL thn = true := by
      simp only [taskBreakFree, breakFreeS, Bool.and_eq_true] at hbf
      exact hbf.1
    exact ih _ _ hthn h
  | case13 fuel c thn els st bb r2 heq hneg ih =>
    intro st1 br hbf h
    simp only [exec.eq_6, heq] at h
    rw [if_neg hneg] at h
    have hels : breakFreeL els = true := by
      simp only [taskBreakFree, breakFreeS, Bool.and_eq_true] at hbf
      exact hbf.2
    exact ih _ _ hels h
  | case14 fuel c body st ih =>
    intro st1 br _ h
    rw [exec.eq_7] at h
    exact ih _ _ rfl h
  | case15 x st =>
    intro st1 br hbf h
    simp [taskBreakFree, breakFreeS] at hbf
  | case16 x e st er herr =>
    intro st1 br _ h
    rw [exec.eq_9, herr] at h
    exact absurd h (by simp)
  | case17 x e st vb r2 heq =>
    intro st1 br _ h
    rw [exec.eq_9, heq] at h
    injection h with h1
    injection h1 with ha hb
    exact hb.symm
  | case18 fuel c body st er herr =>
    intro st1 br _ h
    rw [exec.eq_10, herr] at h
    exact absurd h (by simp)
  | case19 fuel c body st r2 er hbody hcond ih =>
    intro st1 br _ h
    rw [exec.eq_10, hcond] at h
    simp [hbody] at h
  | case20 fuel c body st r2 st2 hcond hbody ih =>
    intro st1 br _ h
    rw [exec.eq_10, hcond] at h
    simp [hbody] at h
    exact h.2
  | case21 c body st r2 st2 br2 hbr hbody hcond ih =>
    intro st1 br _ h
    rw [exec.eq_10, hcond] at h
    simp [hbody, hbr] at h
  | case22 fuel c body st r2 st2 br2 hbody hbr hfuel hcond ihbody ihloop =>
    intro st1 br _ h
    rw [exec.eq_10, hcond] at h
    simp [hbody, hbr, hfuel] at h
    exact ihloop _ _ rfl h
  | case23 fuel c body st bb r2 hcond hneg =>
    intro st1 br _ h
    rw [exec.eq_10, hcond] at h
    simp [hneg] at h
    exact h.2

lemma thenV_ok {α β : Type} {v : Except KernelGrammarError α}
    {w : α → Except KernelGrammarError β} {y : β}
    (h : thenV v w = .ok y) : ∃ x, v = .ok x ∧ w x = .ok y := by
  cases v with
  | error e => simp [thenV] at h
  | ok x => exact ⟨x, rfl, h⟩

lemma validateStmts_breakFree :
    ∀ (inLoop : Bool) (ss : List RStmt) (is1 : List IStmt),
      validateStmts inLoop ss = .ok is1 → inLoop = false → breakFreeL is1 = true := by
  intro inLoop ss
  induction inLoop, ss using validateStmts.induct with
  | case1 inLoop =>
    intro is1 h _
    simp only [validateStmts, Except.ok.injEq] at h
    subst h
    simp [breakFreeL]
  | case2 inLoop loc n e rest ih =>
    intro is1 h hf
    simp only [validateStmts] at h
    obtain ⟨ie, hie, h2⟩ := thenV_ok h
    obtain ⟨irest, hirest, h3⟩ := thenV_ok h2
    injection h3 with h3
    subst h3
    rw [breakFreeL_cons]
    simp [breakFreeS, ih _ hirest hf]
  | case3 inLoop loc df e rest ih =>
    intro is1 h hf
    simp only [validateStmts] at h
    obtain ⟨ie, hie, h2⟩ := thenV_ok h
    obtain ⟨irest, hirest, h3⟩ := thenV_ok h2
    injection h3 with h3
    subst h3
    rw [breakFreeL_cons]
    simp [breakFreeS, ih _ hirest hf]
  | case4 inLoop loc n e rest ih =>
    intro is1 h hf
    simp only [validateStmts] at h
    obtain ⟨ie, hie, h2⟩ := thenV_ok h
    obtain ⟨irest, hirest, h3⟩ := thenV_ok h2
    injection h3 with h3
    subst h3
    rw [breakFreeL_cons]
    simp [breakFreeS, ih _ hirest hf]
  | case5 inLoop loc pf e rest =>
    intro is1 h hf
    simp [validateStmts] at h
  | case6 inLoop loc c thn els rest ihthn ihels ihrest =>
    intro is1 h hf
    simp only [validateStmts] at h
    obtain ⟨ic, hic, h2⟩ := thenV_ok h
    obtain ⟨ithn, hthn, h3⟩ := thenV_ok h2
    obtain ⟨iels, hels, h4⟩ := thenV_ok h3
    obtain ⟨irest, hirest, h5⟩ := thenV_ok h4
    injection h5 with h5
    subst h5
    rw [breakFreeL_cons]
    simp [breakFreeS, ihthn _ hthn hf, ihels _ hels hf, ihrest _ hirest hf]
  | case7 inLoop loc c body rest ihbody ihrest =>
    intro is1 h hf
    simp only [validateStmts] at h
    obtain ⟨ic, hic, h2⟩ := thenV_ok h
    obtain ⟨ibody, hbody, h3⟩ := thenV_ok h2
    obtain ⟨irest, hirest, h4⟩ := thenV_ok h3
    injection h4 with h4
    subst h4
    rw [breakFreeL_cons]
    simp [breakFreeS, ihrest _ hirest hf]
  | case8 loc rest ih =>
    intro is1 h hf
    exact absurd hf (by simp)
  | case9 inLoop loc rest hin =>
    intro is1 h hf
    simp [validateStmts, if_neg hin] at h
  | case10 inLoop loc body rest =>
    intro is1 h hf
    simp [validateStmts] at h
  | case11 inLoop loc m rest =>
    intro is1 h hf
    simp [validateStmts] at h
  | case12 inLoop loc e rest ih =>
    intro is1 h hf
    simp only [validateStmts] at h
    obtain ⟨ie, hie, h2⟩ := thenV_ok h
    obtain ⟨irest, hirest, h3⟩ := thenV_ok h2
    injection h3 with h3
    subst h3
    rw [breakFreeL_cons]
    simp [breakFreeS, ih _ hirest hf]

lemma validateChain_breakFree (ks : List Kernel) :
    ∀ (ic : List (List IStmt)), validateChain ks = .ok ic →
      ∀ b ∈ ic, breakFreeL b = true := by
  induction ks with
  | nil =>
    intro ic h
    simp only [validateChain, Except.ok.injEq] at h
    subst h
    simp
  | cons k rest ih =>
    intro ic h
    simp only [validateChain] at h
    obtain ⟨ib, hib, h2⟩ := thenV_ok h
    obtain ⟨irest, hirest, h3⟩ := thenV_ok h2
    injection h3 with h3
    subst h3
    intro b hb
    rcases List.mem_cons.mp hb with rfl | hb2
    · exact validateStmts_breakFree false k.body b hib rfl
    · exact ih irest hirest b hb2

lemma exec_chain_concat (fs : FieldSet) (fuel : Nat) :
    ∀ (chain : List (List IStmt)) (st : EvalState),
      (∀ b ∈ chain, breakFreeL b = true) →
      exec fs fuel (.stmts chain.flatten) st =
        match evalChain fs fuel chain st with
        | .error e => .error e
        | .ok st1 => .ok (st1, false) := by
  intro chain
  induction chain with
  | nil =>
    intro st _
    simp [evalChain, exec.eq_1]
  | cons b bs ih =>
    intro st hbf
    rw [List.flatten_cons, exec_stmts_append]
    simp only [evalChain]
    cases hb : exec fs fuel (.stmts b) st with
    | error e => simp
    | ok pr =>
      obtain ⟨st1, br⟩ := pr
      have hbr : br = false :=
        exec_no_break fs fuel (Task.stmts b) st st1 br
          (by simpa [taskBreakFree] using hbf b (List.mem_cons_self b bs)) hb
      subst hbr
      simp [ih st1 (fun b2 hb2 => hbf b2 (List.mem_cons_of_mem _ hb2))]

lemma stepParticleC_eq (fs : FieldSet) (fuel seed stepIdx : Nat)
    (chain : List (List IStmt)) (hbf : ∀ b ∈ chain, breakFreeL b = true)
    (p : Particle) :
    stepParticleC fs fuel seed stepIdx (generate chain) p =
      stepParticle fs fuel seed stepIdx chain p := by
  unfold stepParticleC stepParticle generate
  rw [exec_chain_concat fs fuel chain _ hbf]
  cases evalChain fs fuel chain (initState seed stepIdx p) <;> simp

lemma runFromC_eq (fs : FieldSet) (fuel seed : Nat)
    (chain : List (List IStmt)) (hbf : ∀ b ∈ chain, breakFreeL b = true) :
    ∀ (n stepIdx : Nat) (ps : List Particle),
      runFromC fs fuel seed (generate chain) stepIdx n ps =
        runFrom fs fuel seed chain stepIdx n ps := by
  intro n
  induction n with
  | zero => intro stepIdx ps; simp [runFromC, runFrom]
  | succ m ih =>
    intro stepIdx ps
    simp only [runFromC, runFrom]
    rw [ih]
    congr 1
    unfold stepBatchC stepBatch
    exact List.map_congr_left fun p _ =>
      stepParticleC_eq fs fuel seed stepIdx chain hbf p

/-- C1: for every validated kernel chain, the compiled mode (running the
generated concatenated body) and the interpreted mode (tree-walking the
kernels) produce the same position trajectories — here exactly equal in
the rational-number model, for every field set, particle set, seed, fuel
bound and number of time steps. -/
theorem compiled_interpreted_equivalent (kchain : List Kernel)
    (ic : List (List IStmt)) (hval : validateChain kchain = .ok ic)
    (fs : FieldSet) (fuel seed n : Nat) (ps : List Particle) :
    runCompiled fs fuel seed ic n ps = runInterp fs fuel seed ic n ps :=
  runFromC_eq fs fuel seed ic (validateChain_breakFree kchain ic hval) n 0 ps

/-- Concrete particle used in witnesses. -/
def demoParticle : Particle :=
  { pid := 0, lon := 0, lat := 0, depth := 0, time := 0, dt := 100,
    status := .active, vars := [("age", 0)] }

/-- Witness for C1 on a concrete validated one-kernel chain. -/
theorem compiled_interpreted_equivalent_witness :
    runCompiled [] 3 0 [[.assignVar "age"
        (.binop .add (.particleGet (.uservar "age")) (.particleGet .dt))]] 2
        [demoParticle] =
      runInterp [] 3 0 [[.assignVar "age"
        (.binop .add (.particleGet (.uservar "age")) (.particleGet .dt))]] 2
        [demoParticle] :=
  compiled_interpreted_equivalent [ageKernel] _
    (by simp [validateChain, validateStmts, validateExpr, thenV, ageKernel])
    [] 3 0 2 [demoParticle]

/-! ## Deferred-commit accounting (spec section 4.4) -/

/-- Per-kernel delta contributions along a chain evaluation: what each
kernel added to the accumulators, in chain order. -/
def kernelContribs (fs : FieldSet) (fuel : Nat) : List (List IStmt) → EvalState → List Deltas
  | [], _ => []
  | b :: bs, st =>
    match exec fs fuel (.stmts b) st with
    | .error _ => []
    | .ok (st1, _) => Deltas.sub st1.deltas st.deltas :: kernelContribs fs fuel bs st1

lemma evalChain_deltas (fs : FieldSet) (fuel : Nat) :
    ∀ (chain : List (List IStmt)) (st st1 : EvalState),
      evalChain fs fuel chain st = .ok st1 →
      st1.deltas.dlon = st.deltas.dlon +
          ((kernelContribs fs fuel chain st).map Deltas.dlon).sum ∧
      st1.deltas.dlat = st.deltas.dlat +
          ((kernelContribs fs fuel chain st).map Deltas.dlat).sum ∧
      st1.deltas.ddepth = st.deltas.ddepth +
          ((kernelContribs fs fuel chain st).map Deltas.ddepth).sum ∧
      st1.deltas.dtime = st.deltas.dtime +
          ((kernelContribs fs fuel chain st).map Deltas.dtime).sum := by
  intro chain
  induction chain with
  | nil =>
    intro st st1 h
    simp only [evalChain, Except.ok.injEq] at h
    subst h
    simp [kernelContribs]
  | cons b bs ih =>
    intro st st1 h
    simp only [evalChain] at h
    cases hb : exec fs fuel (.stmts b) st with
    | error e => rw [hb] at h; exact absurd h (by simp)
    | ok pr =>
      obtain ⟨stm, br⟩ := pr
      rw [hb] at h
      obtain ⟨e1, e2, e3, e4⟩ := ih stm st1 h
      simp only [kernelContribs, hb, List.map_cons, List.sum_cons, Deltas.sub]
      refine ⟨?_, ?_, ?_, ?_⟩
      · rw [e1]; ring
      · rw [e2]; ring
      · rw [e3]; ring
      · rw [e4]; ring

/-- Delta contributions of a whole chain for one particle at one step. -/
def chainContribs (fs : FieldSet) (fuel seed stepIdx : Nat)
    (chain : List (List IStmt)) (p : Particle) : List Deltas :=
  kernelContribs fs fuel chain (initState seed stepIdx p)

/-- C3: for an active particle whose chain runs without error, the
committed position is the start-of-step position plus the sum of the
delta contributions of all kernels of the chain (and time additionally
advances by `dt`); the summed displacement is invariant under any
permutation of the contribution list; and no position or time field
changes while a prefix of the chain is still running. -/
theorem deferred_commit_sum (fs : FieldSet) (fuel seed stepIdx : Nat)
    (chain : List (List IStmt)) (p : Particle) (st1 : EvalState)
    (hactive : p.status = .active)
    (hok : evalChain fs fuel chain (initState seed stepIdx p) = .ok st1) :
    ((stepParticle fs fuel seed stepIdx chain p).lon =
        p.lon + ((chainContribs fs fuel seed stepIdx chain p).map Deltas.dlon).sum ∧
      (stepParticle fs fuel seed stepIdx chain p).lat =
        p.lat + ((chainContribs fs fuel seed stepIdx chain p).map Deltas.dlat).sum ∧
      (stepParticle fs fuel seed stepIdx chain p).depth =
        p.depth + ((chainContribs fs fuel seed stepIdx chain p).map Deltas.ddepth).sum ∧
      (stepParticle fs fuel seed stepIdx chain p).time =
        p.time + p.dt +
          ((chainContribs fs fuel seed stepIdx chain p).map Deltas.dtime).sum) ∧
    (∀ (g : Deltas → Scalar) (l : List Scalar),
        l.Perm ((chainContribs fs fuel seed stepIdx chain p).map g) →
        l.sum = ((chainContribs fs fuel seed stepIdx chain p).map g).sum) ∧
    (∀ (pre suf : List (List IStmt)) (st2 : EvalState), chain = pre ++ suf →
        evalChain fs fuel pre (initState seed stepIdx p) = .ok st2 →
        st2.p.lon = p.lon ∧ st2.p.lat = p.lat ∧ st2.p.depth = p.depth ∧
        st2.p.time = p.time) := by
  have hpos := evalChain_preserves_pos fs fuel chain _ st1 hok
  obtain ⟨hpid, hlon, hlat, hdep, htime, hdt, hstatus⟩ := hpos
  obtain ⟨d1, d2, d3, d4⟩ := evalChain_deltas fs fuel chain _ st1 hok
  have hstep : stepParticle fs fuel seed stepIdx chain p = commitState st1 := by
    simp [stepParticle, hactive, hok]
  simp only [chainContribs]
  refine ⟨⟨?_, ?_, ?_, ?_⟩, ?_, ?_⟩
  · rw [hstep]
    show st1.p.lon + st1.deltas.dlon = _
    rw [hlon, d1]
    show p.lon + (0 + _) = _
    ring
  · rw [hstep]
    show st1.p.lat + st1.deltas.dlat = _
    rw [hlat, d2]
    show p.lat + (0 + _) = _
    ring
  · rw [hstep]
    show st1.p.depth + st1.deltas.ddepth = _
    rw [hdep, d3]
    show p.depth + (0 + _) = _
    ring
  · rw [hstep]
    show st1.p.time + st1.p.dt + st1.deltas.dtime = _
    rw [htime, hdt, d4]
    show p.time + p.dt + (0 + _) = _
    ring
  · intro g l hperm
    exact hperm.sum_eq
  · intro pre suf st2 hsplit hpre
    obtain ⟨_, h1, h2, h3, h4, _, _⟩ := evalChain_preserves_pos fs fuel pre _ st2 hpre
    exact ⟨h1, h2, h3, h4⟩

/-- Two-kernel chain contributing +1 and +2 to the latitude delta. -/
def demoDeltaChain : List (List IStmt) :=
  [[.addDelta .dlat (.lit 1)], [.addDelta .dlat (.lit 2)]]

/-- Witness for C3 on the two-kernel delta chain. -/
theorem deferred_commit_sum_witness :
    ((stepParticle [] 0 0 0 demoDeltaChain demoParticle).lon =
        demoParticle.lon +
          ((chainContribs [] 0 0 0 demoDeltaChain demoParticle).map Deltas.dlon).sum ∧
      (stepParticle [] 0 0 0 demoDeltaChain demoParticle).lat =
        demoParticle.lat +
          ((chainContribs [] 0 0 0 demoDeltaChain demoParticle).map Deltas.dlat).sum ∧
      (stepParticle [] 0 0 0 demoDeltaChain demoParticle).depth =
        demoParticle.depth +
          ((chainContribs [] 0 0 0 demoDeltaChain demoParticle).map Deltas.ddepth).sum ∧
      (stepParticle [] 0 0 0 demoDeltaChain demoParticle).time =
        demoParticle.time + demoParticle.dt +
          ((chainContribs [] 0 0 0 demoDeltaChain demoParticle).map Deltas.dtime).sum) ∧
    (∀ (g : Deltas → Scalar) (l : List Scalar),
        l.Perm ((chainContribs [] 0 0 0 demoDeltaChain demoParticle).map g) →
        l.sum = ((chainContribs [] 0 0 0 demoDeltaChain demoParticle).map g).sum) ∧
    (∀ (pre suf : List (List IStmt)) (st2 : EvalState),
        demoDeltaChain = pre ++ suf →
        evalChain [] 0 pre (initState 0 0 demoParticle) = .ok st2 →
        st2.p.lon = demoParticle.lon ∧ st2.p.lat = demoParticle.lat ∧
        st2.p.depth = demoParticle.depth ∧ st2.p.time = demoParticle.time) :=
  deferred_commit_sum [] 0 0 0 demoDeltaChain demoParticle
    { p := demoParticle, locals := [], deltas := ⟨0, 3, 0, 0⟩,
      rng := mixSeed 0 0 0 }
    rfl
    (by norm_num [evalChain, exec.eq_2, exec.eq_1, exec.eq_4, evalExpr,
      initState, demoParticle, demoDeltaChain, Deltas.bump])

/-! ## Per-particle error isolation (spec sections 4.4, 7) -/

/-- C4: when a particle's chain signals an error during a batch step, that
particle alone turns to `Error` status with position, time and user
variables unchanged (its deltas for the step are discarded), while every
other slot of the batch is exactly the step function of its own particle,
independent of the failing one; the batch itself survives. -/
theorem particle_error_isolation (fs : FieldSet) (fuel seed stepIdx : Nat)
    (chain : List (List IStmt)) (ps : List Particle) (j : Nat) (p : Particle)
    (er : KError) (hj : ps[j]? = some p) (hactive : p.status = .active)
    (herr : evalChain fs fuel chain (initState seed stepIdx p) = .error er) :
    (∃ q, (stepBatch fs fuel seed stepIdx chain ps)[j]? = some q ∧
       q.status = .error ∧ q.lon = p.lon ∧ q.lat = p.lat ∧ q.depth = p.depth ∧
       q.time = p.time ∧ q.vars = p.vars) ∧
    ∀ k, k ≠ j →
      (stepBatch fs fuel seed stepIdx chain ps)[k]? =
        (ps[k]?).map (stepParticle fs fuel seed stepIdx chain) := by
  constructor
  · refine ⟨{ p with status := .error }, ?_, rfl, rfl, rfl, rfl, rfl, rfl⟩
    simp only [stepBatch, List.getElem?_map, hj, Option.map_some]
    simp [stepParticle, hactive, herr]
  · intro k _
    simp [stepBatch, List.getElem?_map]

/-- Second demo particle, released elsewhere. -/
def demoParticle2 : Particle :=
  { pid := 1, lon := 5, lat := 5, depth := 0, time := 0, dt := 100,
    status := .active, vars := [("age", 0)] }

/-- Chain whose first kernel samples far outside the demo grid. -/
def demoErrChain : List (List IStmt) :=
  [[.assignLocal "u" (.sampleAt "U" (.lit 99) (.lit 0) (.lit 0) (.lit 0))]]

/-- Witness for C4: the out-of-bounds sampler errs at slot 0. -/
theorem particle_error_isolation_witness :
    (∃ q, (stepBatch [("U", demoField)] 0 0 0 demoErrChain
        [demoParticle, demoParticle2])[0]? = some q ∧
       q.status = .error ∧ q.lon = demoParticle.lon ∧ q.lat = demoParticle.lat ∧
       q.depth = demoParticle.depth ∧ q.time = demoParticle.time ∧
       q.vars = demoParticle.vars) ∧
    ∀ k, k ≠ 0 →
      (stepBatch [("U", demoField)] 0 0 0 demoErrChain
          [demoParticle, demoParticle2])[k]? =
        ([demoParticle, demoParticle2][k]?).map
          (stepParticle [("U", demoField)] 0 0 0 demoErrChain) :=
  particle_error_isolation [("U", demoField)] 0 0 0 demoErrChain
    [demoParticle, demoParticle2] 0 demoParticle .outOfBounds
    rfl rfl
    (by norm_num [evalChain, exec.eq_2, exec.eq_1, exec.eq_3, evalExpr,
      lookupField, sampleChecked, inAxis, demoField, initState, demoParticle,
      demoErrChain])

/-! ## Determinism of the seeded random source (spec section 9) -/

/-- C8: with the random source threaded explicitly through the evaluation
context and seeded per run, two executions of the same chain on the same
particles and fields with equal seeds yield identical trajectories. -/
theorem seeded_rng_determinism (fs : FieldSet) (fuel : Nat)
    (chain : List (List IStmt)) (n : Nat) (ps : List Particle)
    (s1 s2 : Nat) (hs : s1 = s2) :
    runInterp fs fuel s1 chain n ps = runInterp fs fuel s2 chain n ps := by
  rw [hs]

/-- Chain drawing one random number into a local variable. -/
def demoRandChain : List (List IStmt) :=
  [[.assignLocal "r" (.randCall .random)]]

/-- Witness for C8 at seed 42. -/
theorem seeded_rng_determinism_witness :
    runInterp [] 1 42 demoRandChain 2 [demoParticle] =
      runInterp [] 1 42 demoRandChain 2 [demoParticle] :=
  seeded_rng_determinism [] 1 demoRandChain 2 [demoParticle] 42 42 rfl

/-! ## Shorthand particle sampling (tutorial section 3) -/

/-- C9: the shorthand `field[particle]` evaluates exactly like the explicit
`field[time, particle.depth, particle.lat, particle.lon]` at the
particle's current coordinates, including the random state. -/
theorem shorthand_sampling_equiv (fs : FieldSet) (st : EvalState) (fld : String) :
    evalExpr fs st (.sampleHere fld) =
      evalExpr fs st (.sampleAt fld (.particleGet .time) (.particleGet .depth)
        (.particleGet .lat) (.particleGet .lon)) := by
  simp only [evalExpr, Particle.getAttr]

/-! ## Local-variable scoping across a chain (tutorial section 3) -/

lemma evalChain_append (fs : FieldSet) (fuel : Nat) :
    ∀ (c1 c2 : List (List IStmt)) (st : EvalState),
      evalChain fs fuel (c1 ++ c2) st =
        match evalChain fs fuel c1 st with
        | .error e => .error e
        | .ok st1 => evalChain fs fuel c2 st1 := by
  intro c1
  induction c1 with
  | nil => intro c2 st; simp [evalChain]
  | cons b bs ih =>
    intro c2 st
    rw [List.cons_append]
    simp only [evalChain]
    cases exec fs fuel (.stmts b) st with
    | error e => simp
    | ok pr => obtain ⟨st1, br⟩ := pr; exact ih c2 st1

/-- C10: a local variable set by one kernel is visible to every later
kernel of the chain in the same step (chain evaluation sequences the
shared evaluation context, and a local read yields the stored value);
each particle step starts from an empty local environment; and each
batch slot is evaluated from its own particle alone, so locals are
never shared between particles nor carried across steps. -/
theorem local_variable_scoping (fs : FieldSet) (fuel seed stepIdx : Nat) :
    (∀ (c1 c2 : List (List IStmt)) (st : EvalState),
       evalChain fs fuel (c1 ++ c2) st =
         match evalChain fs fuel c1 st with
         | .error e => .error e
         | .ok st1 => evalChain fs fuel c2 st1) ∧
    (∀ (st : EvalState) (n : String) (v : Scalar),
       lookupAssoc st.locals n = some v →
       evalExpr fs st (.localVar n) = .ok (v, st.rng)) ∧
    (∀ (p : Particle) (chain : List (List IStmt)),
       stepParticle fs fuel seed stepIdx chain p =
         if p.status = .active then
           match evalChain fs fuel chain
               { p := p, locals := [], deltas := ⟨0, 0, 0, 0⟩,
                 rng := mixSeed seed p.pid stepIdx } with
           | .ok st => commitState st
           | .error _ => { p with status := .error }
         else p) ∧
    (∀ (chain : List (List IStmt)) (ps : List Particle) (k : Nat),
       (stepBatch fs fuel seed stepIdx chain ps)[k]? =
         (ps[k]?).map (stepParticle fs fuel seed stepIdx chain)) := by
  refine ⟨evalChain_append fs fuel, ?_, ?_, ?_⟩
  · intro st n v h
    simp [evalExpr, h]
  · intro p chain
    rfl
  · intro chain ps k
    simp [stepBatch, List.getElem?_map]

/-- Evaluation context with one local already set, for the C10 witness. -/
def demoLocalState : EvalState :=
  { p := demoParticle, locals := [("x", 5)], deltas := ⟨0, 0, 0, 0⟩, rng := 7 }

/-- Witness for C10 at concrete chains, state and batch. -/
theorem local_variable_scoping_witness :
    (evalChain [] 0 (demoDeltaChain ++ demoRandChain) demoLocalState =
       match evalChain [] 0 demoDeltaChain demoLocalState with
       | .error e => .error e
       | .ok st1 => evalChain [] 0 demoRandChain st1) ∧
    (evalExpr [] demoLocalState (.localVar "x") = .ok (5, demoLocalState.rng)) ∧
    (stepParticle [] 0 3 4 demoDeltaChain demoParticle =
       if demoParticle.status = .active then
         match evalChain [] 0 demoDeltaChain
             { p := demoParticle, locals := [], deltas := ⟨0, 0, 0, 0⟩,
               rng := mixSeed 3 demoParticle.pid 4 } with
         | .ok st => commitState st
         | .error _ => { demoParticle with status := .error }
       else demoParticle) ∧
    ((stepBatch [] 0 3 4 demoDeltaChain [demoParticle, demoParticle2])[1]? =
       ([demoParticle, demoParticle2][1]?).map (stepParticle [] 0 3 4 demoDeltaChain)) :=
  ⟨(local_variable_scoping [] 0 3 4).1 demoDeltaChain demoRandChain demoLocalState,
   (local_variable_scoping [] 0 3 4).2.1 demoLocalState "x" 5
     (by simp [demoLocalState, lookupAssoc]),
   (local_variable_scoping [] 0 3 4).2.2.1 demoParticle demoDeltaChain,
   (local_variable_scoping [] 0 3 4).2.2.2 demoDeltaChain
     [demoParticle, demoParticle2] 1⟩

/-! ## Compiled-function loader and cache (spec section 4.2) -/

/-- A compiled artifact: a directly callable unit derived from the
generated source of a chain. -/
structure CompiledKernel where
  src : List IStmt

/-- Build failure of the toolchain: an internal-invariant violation. -/
inductive KernelBuildError where
  | buildFailed
deriving DecidableEq

/-- Simple content-hash mixer. -/
def hashMix (a b : Nat) : Nat := (a * 1000003 + b) % 18446744073709551616

/-- Content hash of a name. -/
def hashStr (s : String) : Nat := s.length + (s.data.map Char.toNat).sum

/-- Content hash of a scalar literal. -/
def hashQ (q : Scalar) : Nat :=
  hashMix q.num.natAbs (hashMix (if q.num < 0 then 1 else 0) q.den)

/-- Content hash of a particle attribute name. -/
def hashPVar : PVar → Nat
  | .lon => 1 | .lat => 2 | .depth => 3 | .time => 4 | .dt => 5 | .pid => 6
  | .uservar n => 7 + hashStr n

/-- Content hash of an operator. -/
def hashBinOp : BinOp → Nat
  | .add => 1 | .sub => 2 | .mul => 3 | .div => 4 | .pow => 5

/-- Content hash of a comparison operator. -/
def hashCmpOp : CmpOp → Nat
  | .lt => 1 | .le => 2 | .gt => 3 | .ge => 4 | .eq => 5 | .ne => 6

/-- Content hash of a math function name. -/
def hashMathFn : MathFn → Nat
  | .fabs => 1 | .floor => 2 | .ceil => 3

/-- Content hash of a delta-accumulator name. -/
def hashDF : DeltaField → Nat
  | .dlon => 1 | .dlat => 2 | .ddepth => 3 | .dtime => 4

/-- Content hash of a generated expression. -/
def hashE : IExpr → Nat
  | .lit v => hashMix 1 (hashQ v)
  | .localVar n => hashMix 2 (hashStr n)
  | .particleGet f => hashMix 3 (hashPVar f)
  | .binop op a b => hashMix 4 (hashMix (hashBinOp op) (hashMix (hashE a) (hashE b)))
  | .mathCall fn a => hashMix 5 (hashMix (hashMathFn fn) (hashE a))
  | .randCall _ => 6
  | .sampleAt fld t d la lo =>
    hashMix 7 (hashMix (hashStr fld)
      (hashMix (hashE t) (hashMix (hashE d) (hashMix (hashE la) (hashE lo)))))
  | .sampleHere fld => hashMix 8 (hashStr fld)

/-- Content hash of a generated condition. -/
def hashC : ICond → Nat
  | .cmp op a b => hashMix 9 (hashMix (hashCmpOp op) (hashMix (hashE a) (hashE b)))
  | .andC a b => hashMix 10 (hashMix (hashC a) (hashC b))
  | .orC a b => hashMix 11 (hashMix (hashC a) (hashC b))
  | .notC a => hashMix 12 (hashC a)

/-- Modelled from the spec: content hash of a chain's generated source;
the loader itself is absent from the sources. -/
def hashL : List IStmt → Nat
  | [] => 13
  | .assignLocal n e :: rest =>
    hashMix 14 (hashMix (hashStr n) (hashMix (hashE e) (hashL rest)))
  | .addDelta df e :: rest =>
    hashMix 15 (hashMix (hashDF df) (hashMix (hashE e) (hashL rest)))
  | .assignVar n e :: rest =>
    hashMix 16 (hashMix (hashStr n) (hashMix (hashE e) (hashL rest)))
  | .ifS c thn els :: rest =>
    hashMix 17 (hashMix (hashC c) (hashMix (hashL thn) (hashMix (hashL els) (hashL rest))))
  | .whileS c body :: rest =>
    hashMix 18 (hashMix (hashC c) (hashMix (hashL body) (hashL rest)))
  | .breakS :: rest => hashMix 19 (hashL rest)
  | .printS e :: rest => hashMix 20 (hashMix (hashE e) (hashL rest))
termination_by ss => sizeOf ss

/-- Process-local artifact cache, keyed by content hash. -/
def lookupCache : List (Nat × CompiledKernel) → Nat → Option CompiledKernel
  | [], _ => none
  | (h, a) :: rest, h1 => if h = h1 then some a else lookupCache rest h1

/-- Modelled from the spec: `ensure_compiled(chain)` — hash the chain's
generated source; a cache hit returns the stored artifact without
rebuilding (the Bool reports whether a build ran); otherwise the
toolchain builds the source, and a toolchain failure surfaces as a
`KernelBuildError`. -/
def ensure_compiled (tool : List IStmt → Except KernelBuildError CompiledKernel)
    (cache : List (Nat × CompiledKernel)) (chain : List (List IStmt)) :
    Except KernelBuildError (List (Nat × CompiledKernel) × CompiledKernel × Bool) :=
  match lookupCache cache (hashL (generate chain)) with
  | some art => .ok (cache, art, false)
  | none =>
    match tool (generate chain) with
    | .ok art => .ok ((hashL (generate chain), art) :: cache, art, true)
    | .error e => .error e

/-- C5: code generation is deterministic (equal chains generate equal
code, hence equal content hashes); after any successful call, calling
`ensure_compiled` again on the same chain returns the already-built
artifact from the unchanged cache without rebuilding; and on a cache
miss a toolchain failure surfaces as the `KernelBuildError` it reported. -/
theorem ensure_compiled_spec :
    (∀ c1 c2 : List (List IStmt), c1 = c2 →
       generate c1 = generate c2 ∧ hashL (generate c1) = hashL (generate c2)) ∧
    (∀ (tool : List IStmt → Except KernelBuildError CompiledKernel)
       (cache cache1 : List (Nat × CompiledKernel))
       (chain : List (List IStmt)) (art : CompiledKernel) (rebuilt : Bool),
       ensure_compiled tool cache chain = .ok (cache1, art, rebuilt) →
       ensure_compiled tool cache1 chain = .ok (cache1, art, false)) ∧
    (∀ (tool : List IStmt → Except KernelBuildError CompiledKernel)
       (cache : List (Nat × CompiledKernel)) (chain : List (List IStmt))
       (e : KernelBuildError),
       lookupCache cache (hashL (generate chain)) = none →
       tool (generate chain) = .error e →
       ensure_compiled tool cache chain = .error e) := by
  refine ⟨?_, ?_, ?_⟩
  · intro c1 c2 h
    subst h
    exact ⟨rfl, rfl⟩
  · intro tool cache cache1 chain art rebuilt h
    unfold ensure_compiled at h ⊢
    cases hl : lookupCache cache (hashL (generate chain)) with
    | some art0 =>
      rw [hl] at h
      simp only [Except.ok.injEq, Prod.mk.injEq] at h
      obtain ⟨h1, h2, h3⟩ := h
      subst h1
      subst h2
      rw [hl]
    | none =>
      rw [hl] at h
      cases ht : tool (generate chain) with
      | error e => rw [ht] at h; exact absurd h (by simp)
      | ok art0 =>
        rw [ht] at h
        simp only [Except.ok.injEq, Prod.mk.injEq] at h
        obtain ⟨h1, h2, h3⟩ := h
        subst h1
        subst h2
        simp [lookupCache]
  · intro tool cache chain e hl ht
    unfold ensure_compiled
    rw [hl, ht]

/-- Witness for C5: a first call on an empty cache builds, the second is
served from the cache without rebuilding, and a failing toolchain
surfaces its error. -/
theorem ensure_compiled_spec_witness :
    (generate demoDeltaChain = generate demoDeltaChain ∧
       hashL (generate demoDeltaChain) = hashL (generate demoDeltaChain)) ∧
    (ensure_compiled (fun src => .ok ⟨src⟩)
        [(hashL (generate demoDeltaChain), ⟨generate demoDeltaChain⟩)]
        demoDeltaChain =
      .ok ([(hashL (generate demoDeltaChain), ⟨generate demoDeltaChain⟩)],
        ⟨generate demoDeltaChain⟩, false)) ∧
    (ensure_compiled (fun _ => .error .buildFailed) [] demoDeltaChain =
      .error .buildFailed) :=
  ⟨ensure_compiled_spec.1 demoDeltaChain demoDeltaChain rfl,
   ensure_compiled_spec.2.1 (fun src => .ok ⟨src⟩) [] _ demoDeltaChain
     ⟨generate demoDeltaChain⟩ true
     (by simp [ensure_compiled, lookupCache]),
   ensure_compiled_spec.2.2 (fun _ => .error .buildFailed) [] demoDeltaChain
     .buildFailed (by simp [lookupCache]) rfl⟩

/-! ## Spatial domain splitter (spec section 4.5) -/

/-- Modelled from the spec: recursive spatial median split — sort the
points along the current axis, split proportionally to the two worker
halves, and recurse with the axis alternating; the splitter itself is
absent from the sources. -/
def kdPartAux (axis : Bool) (pts : List (Nat × Scalar × Scalar)) (k : Nat) :
    List (List Nat) :=
  if _hk : k ≤ 1 then [pts.map (fun q => q.1)]
  else
    let sorted := pts.mergeSort (fun a b =>
      if axis then decide (a.2.1 ≤ b.2.1) else decide (a.2.2 ≤ b.2.2))
    let kl := (k + 1) / 2
    let h := pts.length * kl / k
    kdPartAux (!axis) (sorted.take h) kl ++
      kdPartAux (!axis) (sorted.drop h) (k - kl)
termination_by k
decreasing_by
  · omega
  · omega

/-- Modelled from the spec: partition the indices of a particle
collection across `k` workers by recursive spatial median split on the
particle positions. -/
def partitionIndices (ps : List Particle) (k : Nat) : List (List Nat) :=
  kdPartAux true ((ps.enum).map (fun q => (q.1, q.2.lon, q.2.lat))) k

lemma kdPartAux_spec (k : Nat) :
    ∀ (axis : Bool) (pts : List (Nat × Scalar × Scalar)), 1 ≤ k →
      ((kdPartAux axis pts k).flatten).Perm (pts.map (fun q => q.1)) ∧
      (kdPartAux axis pts k).length = k := by
  induction k using Nat.strong_induction_on with
  | _ k ih =>
    intro axis pts hk
    by_cases hk1 : k ≤ 1
    · have : k = 1 := by omega
      subst this
      rw [kdPartAux]
      simp
    · rw [kdPartAux]
      rw [dif_neg hk1]
      have hkl1 : 1 ≤ (k + 1) / 2 := by omega
      have hklk : (k + 1) / 2 < k := by omega
      have hkr1 : 1 ≤ k - (k + 1) / 2 := by omega
      have hkrk : k - (k + 1) / 2 < k := by omega
      obtain ⟨hp1, hl1⟩ := ih _ hklk (!axis) _ hkl1
      obtain ⟨hp2, hl2⟩ := ih _ hkrk (!axis) _ hkr1
      constructor
      · rw [List.flatten_append]
        refine ((hp1.append hp2).trans ?_)
        rw [← List.map_append, List.take_append_drop]
        exact (List.mergeSort_perm pts _).map _
      · rw [List.length_append, hl1, hl2]
        omega

/-- C7: for every particle collection and positive worker count `k`, the
domain splitter yields exactly `k` pairwise-disjoint index sets whose
union is exactly the index set of the collection. -/
theorem partition_disjoint_cover (ps : List Particle) (k : Nat) (hk : 1 ≤ k) :
    (partitionIndices ps k).length = k ∧
    List.Pairwise List.Disjoint (partitionIndices ps k) ∧
    (∀ i : Nat, (∃ part ∈ partitionIndices ps k, i ∈ part) ↔ i < ps.length) := by
  unfold partitionIndices
  obtain ⟨hperm, hlen⟩ :=
    kdPartAux_spec k true ((ps.enum).map (fun q => (q.1, q.2.lon, q.2.lat))) hk
  have hfst : (((ps.enum).map (fun q : Nat × Particle => (q.1, q.2.lon, q.2.lat))).map
      (fun q : Nat × Scalar × Scalar => q.1)) = List.range ps.length := by
    rw [List.map_map]
    exact List.enum_map_fst ps
  rw [hfst] at hperm
  refine ⟨hlen, ?_, ?_⟩
  · have hnd : ((partitionIndices ps k).flatten).Nodup :=
      hperm.nodup_iff.mpr (List.nodup_range ps.length)
    exact (List.nodup_flatten.mp hnd).2
  · intro i
    rw [← List.mem_flatten, hperm.mem_iff, List.mem_range]

/-- Witness for C7 on a two-particle collection split over two workers. -/
theorem partition_disjoint_cover_witness :
    (partitionIndices [demoParticle, demoParticle2] 2).length = 2 ∧
    List.Pairwise List.Disjoint (partitionIndices [demoParticle, demoParticle2] 2) ∧
    (∀ i : Nat,
      (∃ part ∈ partitionIndices [demoParticle, demoParticle2] 2, i ∈ part) ↔ i < 2) :=
  partition_disjoint_cover [demoParticle, demoParticle2] 2 (by omega)

end Parcels
